import Mathlib

/-
Verification of the ASI-Chain MeTTa simulation engine.

The repository has two engine files with the same public surface:
  * src/agent_sim_simple.py  (pure-Python engine, SimpleMeTTaRuntime)
  * src/agent_sim.py         (hyperon/MeTTa-backed engine)
Both keep all observable state in plain Python structures
(`self.agents : Dict[str, float]`, `self.action_history`, `self.step_count`).
We shallowly embed them here.  Reputations are Python floats in the source;
the embedding models the arithmetic over ℚ (the spec describes exact
real arithmetic: clamp bounds, the 1.1x trade premium, sums).  A Python
dict is embedded as an insertion-ordered association list: lookup reads
the first occurrence of a key and value assignment rewrites it, which
agrees with dict semantics since dict keys are unique.  The textual
command strings passed through the rule runtimes (for example
"!(action-contribute Agent_0)") are embedded in already-parsed form
(`Cmd`); Python str/float round-trips of the arguments are exact.
-/

set_option autoImplicit false

namespace ASISim

/-- Action kinds drawn each step: `actions = ['contribute', 'share', 'trade', 'idle']`
(agent_sim_simple.py line 168, agent_sim.py line 156). -/
inductive Action where
  | contribute
  | share
  | trade
  | idle
deriving DecidableEq, Repr

/-- Python dict lookup `agents.get(name)` / `name in agents` on an
insertion-ordered association list: the value at the first occurrence of the key. -/
def lookup : List (String × ℚ) → String → Option ℚ
  | [], _ => none
  | (k, v) :: rest, key => if k = key then some v else lookup rest key

/-- Python dict assignment `agents[name] = v` for a key that is present
(every mutation site in the source is guarded by a membership check):
replaces the value at the first occurrence of the key. -/
def setVal : List (String × ℚ) → String → ℚ → List (String × ℚ)
  | [], _, _ => []
  | (k, v) :: rest, key, newV =>
      if k = key then (k, newV) :: rest else (k, v) :: setVal rest key newV

/-- Sum of the stored reputations, `sum(self.agents.values())`. -/
def sumVals (agents : List (String × ℚ)) : ℚ := (agents.map Prod.snd).sum

/-- Agent naming scheme `f"Agent_{i}"` used by `_initialize_agents`. -/
def agentName (i : ℕ) : String := "Agent_" ++ toString i

/-- The agent store built by `_initialize_agents`: one entry per `i in range(num_agents)`
named `Agent_i`, seeded with the i-th draw of `random.uniform(50, 100)` (the draws
are passed in explicitly as `inits`).  A Python `range` over a non-positive bound
is empty, hence `Int.toNat`. -/
def initAgents (n : ℤ) (inits : List ℚ) : List (String × ℚ) :=
  (List.range n.toNat).map (fun i => (agentName i, inits.getD i 0))

/-- Observable state of an `AgentSimulation` object: `self.num_agents`,
`self.agents`, `self.action_history` (tuples `(agent_name, action, reputation_change)`),
`self.step_count`. -/
structure SimState where
  numAgents : ℤ
  agents : List (String × ℚ)
  history : List (String × Action × ℚ)
  stepCount : ℕ
deriving DecidableEq, Repr

/-- The dictionary returned by `step()`: step index, acting agent, action kind,
reputation before/after, delta, and the health score after the step. -/
structure StepRecord where
  step : ℕ
  agent : String
  action : Action
  old_reputation : ℚ
  new_reputation : ℚ
  reputation_change : ℚ
  health_score : ℚ
deriving DecidableEq, Repr

/-- The random draws consumed by one `step()` call: the index of the acting agent
in `list(self.agents.keys())`, the weighted action choice, and — read only on a
`trade` — the index of the partner in the `other_agents` list and the
`random.uniform(5, 15)` transfer amount. -/
structure StepChoice where
  agentIdx : ℕ
  act : Action
  partnerIdx : ℕ
  amount : ℚ
deriving DecidableEq, Repr

/-- Commands sent through the rule runtime by `step()`, in parsed form.
The source formats them as strings such as `!(action-share Agent_3)` or
`!(transfer-reputation Agent_0 Agent_2 7.25)`; `SimpleMeTTaRuntime.run`
strips `!( )` and splits on spaces, and the hyperon `MeTTa.run` parses the
same surface syntax, so the embedding carries the parsed fields directly. -/
inductive Cmd where
  | actionContribute (agent : String)
  | actionShare (agent : String)
  | actionIdle (agent : String)
  | transferRep (fromAgent toAgent : String) (amount : ℚ)
deriving DecidableEq, Repr

namespace Simple

/-- Grounded function `update_reputation` (agent_sim_simple.py lines 90-99):
clamps `old + change` to [0, 200] and returns the new value; returns 0 and
changes nothing when the agent is unknown.  First component: the store after
the call; second: the returned value. -/
def update_reputation (agents : List (String × ℚ)) (name : String) (change : ℚ) :
    List (String × ℚ) × ℚ :=
  match lookup agents name with
  | some oldRep =>
      let newRep := max 0 (min 200 (oldRep + change))
      (setVal agents name newRep, newRep)
  | none => (agents, 0)

/-- Grounded function `get_reputation` (agent_sim_simple.py lines 101-105). -/
def get_reputation (agents : List (String × ℚ)) (name : String) : ℚ :=
  (lookup agents name).getD 0

/-- Grounded function `transfer_reputation` (agent_sim_simple.py lines 107-117):
if both agents exist and the sender holds at least `amount`, debit the sender by
`amount`, credit the receiver by `amount * 1.1` (no clamp on the credit), and
return 1; otherwise return 0 with no mutation.  The debit is applied first, so a
self-transfer reads its own debited value before the credit. -/
def transfer_reputation (agents : List (String × ℚ)) (fromAgent toAgent : String)
    (amount : ℚ) : List (String × ℚ) × ℚ :=
  match lookup agents fromAgent, lookup agents toAgent with
  | some fromRep, some _ =>
      if amount ≤ fromRep then
        let afterDebit := setVal agents fromAgent (fromRep - amount)
        let toRep := (lookup afterDebit toAgent).getD 0
        (setVal afterDebit toAgent (toRep + amount * (11 / 10)), 1)
      else (agents, 0)
  | _, _ => (agents, 0)

/-- Dispatch of one parsed command by `SimpleMeTTaRuntime.run` through the rules
registered in `_load_rules` (agent_sim_simple.py lines 124-149): `action-contribute`
is `update-reputation agent 15`, `action-share` is `+8`, `action-idle` is `-2`,
and `transfer-reputation` forwards to the grounded transfer. -/
def runCmd (agents : List (String × ℚ)) : Cmd → List (String × ℚ) × ℚ
  | .actionContribute agent => update_reputation agents agent 15
  | .actionShare agent => update_reputation agents agent 8
  | .actionIdle agent => update_reputation agents agent (-2)
  | .transferRep fromAgent toAgent amount => transfer_reputation agents fromAgent toAgent amount

/-- Health score `get_health_score` (agent_sim_simple.py lines 207-216): mean
reputation, 0 for an empty store. -/
def healthScore (agents : List (String × ℚ)) : ℚ :=
  if agents = [] then 0 else sumVals agents / agents.length

/-- The `other_agents` list built in the trade branch of `step()`
(agent_sim_simple.py line 181): all keys different from the acting agent. -/
def otherAgents (agents : List (String × ℚ)) (name : String) : List String :=
  (agents.map Prod.fst).filter (fun a => a ≠ name)

/-- One `step()` call (agent_sim_simple.py lines 151-205) with its random draws
passed in as `c`: increment `step_count`, pick the acting agent from the key list,
dispatch the chosen action through the rule runtime (a `trade` with no eligible
counterparty dispatches nothing), record the acting agent's delta in
`action_history`, and return the step dictionary. -/
def step (s : SimState) (c : StepChoice) : SimState × StepRecord :=
  let newCount := s.stepCount + 1
  let acting := (s.agents.map Prod.fst).getD c.agentIdx ""
  let oldRep := (lookup s.agents acting).getD 0
  let agents' :=
    match c.act with
    | .contribute => (runCmd s.agents (.actionContribute acting)).1
    | .share => (runCmd s.agents (.actionShare acting)).1
    | .trade =>
        let others := otherAgents s.agents acting
        if others = [] then s.agents
        else
          let partner := others.getD c.partnerIdx ""
          (runCmd s.agents (.transferRep acting partner c.amount)).1
    | .idle => (runCmd s.agents (.actionIdle acting)).1
  let newRep := (lookup agents' acting).getD 0
  let change := newRep - oldRep
  ({ s with agents := agents',
            history := s.history ++ [(acting, c.act, change)],
            stepCount := newCount },
   { step := newCount, agent := acting, action := c.act,
     old_reputation := oldRep, new_reputation := newRep,
     reputation_change := change, health_score := healthScore agents' })

/-- Constructor `AgentSimulation.__init__` (agent_sim_simple.py lines 54-74):
stores `num_agents` unvalidated, builds the agent store, starts with empty
history and `step_count = 0`.  No rejection of non-positive counts occurs. -/
def mkSim (n : ℤ) (inits : List ℚ) : SimState :=
  { numAgents := n, agents := initAgents n inits, history := [], stepCount := 0 }

/-- Reset `AgentSimulation.reset` (agent_sim_simple.py lines 236-251): optionally
replace `num_agents`, clear the store, history and counter, and re-seed the agents.
No rejection of non-positive counts occurs. -/
def resetSim (s : SimState) (n : Option ℤ) (inits : List ℚ) : SimState :=
  let n' := n.getD s.numAgents
  { numAgents := n', agents := initAgents n' inits, history := [], stepCount := 0 }

/-- Getter `get_agent_states` (returns a copy of the store). -/
def getAgentStates (s : SimState) : List (String × ℚ) := s.agents

/-- Getter `get_action_history` (returns a copy of the history). -/
def getActionHistory (s : SimState) : List (String × Action × ℚ) := s.history

/-- The tier counters of `get_reputation_distribution`. -/
structure Distribution where
  high : ℕ
  medium : ℕ
  low : ℕ
deriving DecidableEq, Repr

/-- One loop iteration of `get_reputation_distribution` (agent_sim_simple.py
lines 262-268): `if reputation >= 100` high, `elif reputation >= 50` medium,
else low. -/
def distStep (d : Distribution) (rep : ℚ) : Distribution :=
  if 100 ≤ rep then { d with high := d.high + 1 }
  else if 50 ≤ rep then { d with medium := d.medium + 1 }
  else { d with low := d.low + 1 }

/-- Getter `get_reputation_distribution` (agent_sim_simple.py lines 253-270):
fold the tier counting over the stored values, starting from all-zero counters. -/
def get_reputation_distribution (s : SimState) : Distribution :=
  s.agents.foldl (fun d p => distStep d p.2) ⟨0, 0, 0⟩

/-- Validity of the random draws of one step with respect to the guarantees of
the Python random source: `random.choice` picks an index below the length of the
key list (and requires the list to be nonempty), and a trade draws its amount
from `random.uniform(5, 15)` and its partner index below the length of
`other_agents` when that list is nonempty. -/
def ValidChoice (s : SimState) (c : StepChoice) : Prop :=
  c.agentIdx < s.agents.length ∧
  (c.act = .trade →
    (5 ≤ c.amount ∧ c.amount ≤ 15) ∧
    (otherAgents s.agents ((s.agents.map Prod.fst).getD c.agentIdx "") ≠ [] →
      c.partnerIdx < (otherAgents s.agents ((s.agents.map Prod.fst).getD c.agentIdx "")).length))

instance (s : SimState) (c : StepChoice) : Decidable (ValidChoice s c) := by
  unfold ValidChoice; infer_instance

/-- Validity of the seeded reputations handed to `_initialize_agents`: exactly
one draw per created agent, each drawn by `random.uniform(50, 100)`. -/
def ValidInits (n : ℤ) (inits : List ℚ) : Prop :=
  inits.length = n.toNat ∧ ∀ r ∈ inits, 50 ≤ r ∧ r ≤ 100

instance (n : ℤ) (inits : List ℚ) : Decidable (ValidInits n inits) := by
  unfold ValidInits; infer_instance

/-- Reachable simulation states: any construction, followed by any sequence of
steps (with draws the random source can produce) and resets. -/
inductive Reachable : SimState → Prop where
  | init (n : ℤ) (inits : List ℚ) (hv : ValidInits n inits) : Reachable (mkSim n inits)
  | step (s : SimState) (c : StepChoice) (hs : Reachable s) (hc : ValidChoice s c) :
      Reachable (step s c).1
  | reset (s : SimState) (n : Option ℤ) (inits : List ℚ) (hs : Reachable s)
      (hv : ValidInits (n.getD s.numAgents) inits) : Reachable (resetSim s n inits)

/-- Iterated `step()` calls, collecting the returned step dictionaries in order. -/
def runSteps (s : SimState) : List StepChoice → SimState × List StepRecord
  | [] => (s, [])
  | c :: cs =>
      let p := step s c
      let q := runSteps p.1 cs
      (q.1, p.2 :: q.2)

/-- Validity of a whole sequence of step draws, each judged in the state it is
consumed in. -/
def ValidTrace : SimState → List StepChoice → Prop
  | _, [] => True
  | s, c :: cs => ValidChoice s c ∧ ValidTrace (step s c).1 cs

instance (s : SimState) (cs : List StepChoice) : Decidable (ValidTrace s cs) := by
  induction cs generalizing s with
  | nil => exact .isTrue trivial
  | cons c cs ih => exact @instDecidableAnd _ _ _ (ih _)

end Simple

namespace Rich

/-- Grounded function `update_reputation` of the hyperon engine (agent_sim.py
lines 67-77).  The body is the same clamp-and-store as the simple engine; the
`Atom`/`ValueAtom` marshalling of the arguments and result is the identity on
the underlying name and number. -/
def update_reputation (agents : List (String × ℚ)) (name : String) (change : ℚ) :
    List (String × ℚ) × ℚ :=
  match lookup agents name with
  | some oldRep =>
      let newRep := max 0 (min 200 (oldRep + change))
      (setVal agents name newRep, newRep)
  | none => (agents, 0)

/-- Grounded function `get_reputation` of the hyperon engine (agent_sim.py
lines 80-85). -/
def get_reputation (agents : List (String × ℚ)) (name : String) : ℚ :=
  (lookup agents name).getD 0

/-- Grounded function `transfer_reputation` of the hyperon engine (agent_sim.py
lines 88-100): same two-sided check followed by debit and unclamped 1.1x credit. -/
def transfer_reputation (agents : List (String × ℚ)) (fromAgent toAgent : String)
    (amount : ℚ) : List (String × ℚ) × ℚ :=
  match lookup agents fromAgent, lookup agents toAgent with
  | some fromRep, some _ =>
      if amount ≤ fromRep then
        let afterDebit := setVal agents fromAgent (fromRep - amount)
        let toRep := (lookup afterDebit toAgent).getD 0
        (setVal afterDebit toAgent (toRep + amount * (11 / 10)), 1)
      else (agents, 0)
  | _, _ => (agents, 0)

/-- Dispatch of one command by the hyperon `MeTTa.run` under the rules loaded in
`_load_metta_rules` (agent_sim.py lines 117-134).  Modelled from the spec: the
hyperon evaluator itself is an external dependency not in src/; per the rule
text `(= (action-contribute $agent) (update-reputation $agent 15))` and its
`action-share` (+8) and `action-idle` (-2) siblings, each action rewrites to one
call of the registered grounded operation, and `transfer-reputation` is the
grounded transfer itself. -/
def runCmd (agents : List (String × ℚ)) : Cmd → List (String × ℚ) × ℚ
  | .actionContribute agent => update_reputation agents agent 15
  | .actionShare agent => update_reputation agents agent 8
  | .actionIdle agent => update_reputation agents agent (-2)
  | .transferRep fromAgent toAgent amount => transfer_reputation agents fromAgent toAgent amount

/-- Health score `get_health_score` of the hyperon engine (agent_sim.py
lines 195-204). -/
def healthScore (agents : List (String × ℚ)) : ℚ :=
  if agents = [] then 0 else sumVals agents / agents.length

/-- The `other_agents` list of the trade branch (agent_sim.py line 169). -/
def otherAgents (agents : List (String × ℚ)) (name : String) : List String :=
  (agents.map Prod.fst).filter (fun a => a ≠ name)

/-- One `step()` call of the hyperon engine (agent_sim.py lines 139-193); the
control flow is that of the simple engine with `MeTTa.run` in place of
`SimpleMeTTaRuntime.run` (the `result` atom list is never read). -/
def step (s : SimState) (c : StepChoice) : SimState × StepRecord :=
  let newCount := s.stepCount + 1
  let acting := (s.agents.map Prod.fst).getD c.agentIdx ""
  let oldRep := (lookup s.agents acting).getD 0
  let agents' :=
    match c.act with
    | .contribute => (runCmd s.agents (.actionContribute acting)).1
    | .share => (runCmd s.agents (.actionShare acting)).1
    | .trade =>
        let others := otherAgents s.agents acting
        if others = [] then s.agents
        else
          let partner := others.getD c.partnerIdx ""
          (runCmd s.agents (.transferRep acting partner c.amount)).1
    | .idle => (runCmd s.agents (.actionIdle acting)).1
  let newRep := (lookup agents' acting).getD 0
  let change := newRep - oldRep
  ({ s with agents := agents',
            history := s.history ++ [(acting, c.act, change)],
            stepCount := newCount },
   { step := newCount, agent := acting, action := c.act,
     old_reputation := oldRep, new_reputation := newRep,
     reputation_change := change, health_score := healthScore agents' })

/-- Constructor of the hyperon engine (agent_sim.py lines 27-58).  The extra
`metta.run` of `bind!` atoms writes only into the hyperon space, which none of
the public getters read; the Python-side observable state is as in the simple
engine. -/
def mkSim (n : ℤ) (inits : List ℚ) : SimState :=
  { numAgents := n, agents := initAgents n inits, history := [], stepCount := 0 }

/-- Reset of the hyperon engine (agent_sim.py lines 224-239). -/
def resetSim (s : SimState) (n : Option ℤ) (inits : List ℚ) : SimState :=
  let n' := n.getD s.numAgents
  { numAgents := n', agents := initAgents n' inits, history := [], stepCount := 0 }

/-- Getter `get_agent_states` of the hyperon engine (agent_sim.py lines 206-213). -/
def getAgentStates (s : SimState) : List (String × ℚ) := s.agents

/-- Getter `get_action_history` of the hyperon engine (agent_sim.py lines 215-222). -/
def getActionHistory (s : SimState) : List (String × Action × ℚ) := s.history

/-- One loop iteration of the hyperon engine's `get_reputation_distribution`
(agent_sim.py lines 250-256). -/
def distStep (d : Simple.Distribution) (rep : ℚ) : Simple.Distribution :=
  if 100 ≤ rep then { d with high := d.high + 1 }
  else if 50 ≤ rep then { d with medium := d.medium + 1 }
  else { d with low := d.low + 1 }

/-- Getter `get_reputation_distribution` of the hyperon engine (agent_sim.py
lines 241-258): same tier fold. -/
def get_reputation_distribution (s : SimState) : Simple.Distribution :=
  s.agents.foldl (fun d p => distStep d p.2) ⟨0, 0, 0⟩

end Rich

/-! Basic facts about the dict embedding. -/

theorem lookup_setVal_self {l : List (String × ℚ)} {k : String} {v w : ℚ}
    (h : lookup l k = some v) : lookup (setVal l k w) k = some w := by
  induction l with
  | nil => simp [lookup] at h
  | cons p rest ih =>
      obtain ⟨pk, pv⟩ := p
      by_cases hk : pk = k
      · simp [lookup, setVal, hk]
      · simp only [lookup, setVal, if_neg hk] at h ⊢
        exact ih h

theorem lookup_setVal_ne {l : List (String × ℚ)} {k k2 : String} {w : ℚ}
    (h : k2 ≠ k) : lookup (setVal l k w) k2 = lookup l k2 := by
  induction l with
  | nil => simp [setVal]
  | cons p rest ih =>
      obtain ⟨pk, pv⟩ := p
      by_cases hk : pk = k
      · subst hk
        have hne : ¬ pk = k2 := fun hh => h hh.symm
        simp [lookup, setVal, hne]
      · simp only [setVal, if_neg hk, lookup]
        by_cases hk2 : pk = k2 <;> simp [hk2, ih]

theorem setVal_setVal_same {l : List (String × ℚ)} {k : String} {v w : ℚ} :
    setVal (setVal l k v) k w = setVal l k w := by
  induction l with
  | nil => simp [setVal]
  | cons p rest ih =>
      obtain ⟨pk, pv⟩ := p
      by_cases hk : pk = k <;> simp [setVal, hk, ih]

theorem sumVals_setVal {l : List (String × ℚ)} {k : String} {v w : ℚ}
    (h : lookup l k = some v) : sumVals (setVal l k w) = sumVals l - v + w := by
  induction l with
  | nil => simp [lookup] at h
  | cons p rest ih =>
      obtain ⟨pk, pv⟩ := p
      by_cases hk : pk = k
      · simp only [lookup, if_pos hk] at h
        obtain rfl : pv = v := by exact Option.some.inj h
        simp only [setVal, if_pos hk, sumVals, List.map_cons, List.sum_cons]
        ring
      · simp only [lookup, if_neg hk] at h
        simp only [setVal, if_neg hk, sumVals, List.map_cons, List.sum_cons]
        have := ih h
        simp only [sumVals] at this
        rw [this]; ring

theorem mem_setVal {l : List (String × ℚ)} {k : String} {w : ℚ} :
    ∀ p ∈ setVal l k w, p.2 = w ∨ p ∈ l := by
  induction l with
  | nil => simp [setVal]
  | cons q rest ih =>
      obtain ⟨qk, qv⟩ := q
      by_cases hk : qk = k
      · intro p hp
        simp only [setVal, if_pos hk, List.mem_cons] at hp
        rcases hp with rfl | hp
        · exact Or.inl rfl
        · exact Or.inr (List.mem_cons_of_mem _ hp)
      · intro p hp
        simp only [setVal, if_neg hk, List.mem_cons] at hp
        rcases hp with rfl | hp
        · exact Or.inr (List.mem_cons_self _ _)
        · rcases ih p hp with h1 | h1
          · exact Or.inl h1
          · exact Or.inr (List.mem_cons_of_mem _ h1)

theorem lookup_mem {l : List (String × ℚ)} {k : String} {v : ℚ}
    (h : lookup l k = some v) : (k, v) ∈ l := by
  induction l with
  | nil => simp [lookup] at h
  | cons p rest ih =>
      obtain ⟨pk, pv⟩ := p
      by_cases hk : pk = k
      · simp only [lookup, if_pos hk] at h
        obtain rfl : pv = v := Option.some.inj h
        subst hk
        exact List.mem_cons_self _ _
      · simp only [lookup, if_neg hk] at h
        exact List.mem_cons_of_mem _ (ih h)

theorem length_setVal {l : List (String × ℚ)} {k : String} {w : ℚ} :
    (setVal l k w).length = l.length := by
  induction l with
  | nil => simp [setVal]
  | cons p rest ih =>
      obtain ⟨pk, pv⟩ := p
      by_cases hk : pk = k <;> simp [setVal, hk, ih]

theorem map_fst_setVal {l : List (String × ℚ)} {k : String} {w : ℚ} :
    (setVal l k w).map Prod.fst = l.map Prod.fst := by
  induction l with
  | nil => simp [setVal]
  | cons p rest ih =>
      obtain ⟨pk, pv⟩ := p
      by_cases hk : pk = k <;> simp [setVal, hk, ih]

theorem getD_self_or_mem (l : List ℚ) (i : ℕ) (d : ℚ) :
    l.getD i d = d ∨ l.getD i d ∈ l := by
  induction l generalizing i with
  | nil => exact Or.inl rfl
  | cons a rest ih =>
      cases i with
      | zero => exact Or.inr (List.mem_cons_self _ _)
      | succ n =>
          rcases ih n with h | h
          · exact Or.inl h
          · exact Or.inr (List.mem_cons_of_mem _ h)

/-! Equation lemmas for the grounded operations of the simple engine. -/

namespace Simple

theorem update_eq_of_some {agents : List (String × ℚ)} {name : String} {change oldRep : ℚ}
    (h : lookup agents name = some oldRep) :
    update_reputation agents name change =
      (setVal agents name (max 0 (min 200 (oldRep + change))),
       max 0 (min 200 (oldRep + change))) := by
  unfold update_reputation
  rw [h]

theorem update_eq_of_none {agents : List (String × ℚ)} {name : String} {change : ℚ}
    (h : lookup agents name = none) :
    update_reputation agents name change = (agents, 0) := by
  unfold update_reputation
  rw [h]

theorem transfer_eq_of_success {agents : List (String × ℚ)} {f t : String}
    {amt fromRep toRep0 : ℚ} (hf : lookup agents f = some fromRep)
    (ht : lookup agents t = some toRep0) (hge : amt ≤ fromRep) :
    transfer_reputation agents f t amt =
      (setVal (setVal agents f (fromRep - amt)) t
        ((lookup (setVal agents f (fromRep - amt)) t).getD 0 + amt * (11 / 10)), 1) := by
  unfold transfer_reputation
  rw [hf, ht]
  simp [hge]

theorem transfer_eq_of_insufficient {agents : List (String × ℚ)} {f t : String}
    {amt fromRep toRep0 : ℚ} (hf : lookup agents f = some fromRep)
    (ht : lookup agents t = some toRep0) (hlt : fromRep < amt) :
    transfer_reputation agents f t amt = (agents, 0) := by
  unfold transfer_reputation
  rw [hf, ht]
  simp [not_le.mpr hlt]

theorem transfer_eq_of_from_none {agents : List (String × ℚ)} {f t : String} {amt : ℚ}
    (hf : lookup agents f = none) :
    transfer_reputation agents f t amt = (agents, 0) := by
  unfold transfer_reputation
  rw [hf]

theorem transfer_eq_of_to_none {agents : List (String × ℚ)} {f t : String} {amt : ℚ}
    (ht : lookup agents t = none) :
    transfer_reputation agents f t amt = (agents, 0) := by
  unfold transfer_reputation
  rw [ht]
  cases lookup agents f <;> rfl

/-! Non-negativity of every stored reputation, preserved by all operations. -/

theorem nonneg_lookup_getD {l : List (String × ℚ)} {k : String}
    (h : ∀ p ∈ l, 0 ≤ p.2) : 0 ≤ (lookup l k).getD 0 := by
  cases hl : lookup l k with
  | none => simp
  | some v => simpa using h _ (lookup_mem hl)

theorem update_reputation_nonneg {agents : List (String × ℚ)} {name : String} {change : ℚ}
    (h : ∀ p ∈ agents, 0 ≤ p.2) :
    ∀ p ∈ (update_reputation agents name change).1, 0 ≤ p.2 := by
  cases hl : lookup agents name with
  | none => rw [update_eq_of_none hl]; exact h
  | some oldRep =>
      rw [update_eq_of_some hl]
      intro p hp
      rcases mem_setVal p hp with h1 | h1
      · rw [h1]; exact le_max_left 0 _
      · exact h p h1

theorem transfer_reputation_nonneg {agents : List (String × ℚ)} {f t : String} {amt : ℚ}
    (h : ∀ p ∈ agents, 0 ≤ p.2) (hamt : 0 ≤ amt) :
    ∀ p ∈ (transfer_reputation agents f t amt).1, 0 ≤ p.2 := by
  cases hf : lookup agents f with
  | none => rw [transfer_eq_of_from_none hf]; exact h
  | some fromRep =>
      cases ht : lookup agents t with
      | none => rw [transfer_eq_of_to_none ht]; exact h
      | some toRep0 =>
          by_cases hge : amt ≤ fromRep
          · rw [transfer_eq_of_success hf ht hge]
            have hdeb : ∀ p ∈ setVal agents f (fromRep - amt), 0 ≤ p.2 := by
              intro p hp
              rcases mem_setVal p hp with h1 | h1
              · rw [h1]; exact sub_nonneg.mpr hge
              · exact h p h1
            intro p hp
            rcases mem_setVal p hp with h1 | h1
            · rw [h1]
              have h2 : 0 ≤ (lookup (setVal agents f (fromRep - amt)) t).getD 0 :=
                nonneg_lookup_getD hdeb
              have h3 : (0 : ℚ) ≤ amt * (11 / 10) := by positivity
              linarith
            · exact hdeb p h1
          · rw [transfer_eq_of_insufficient hf ht (not_le.mp hge)]
            exact h

theorem runCmd_nonneg {agents : List (String × ℚ)} {cmd : Cmd}
    (h : ∀ p ∈ agents, 0 ≤ p.2)
    (hamt : ∀ f t amt, cmd = .transferRep f t amt → 0 ≤ amt) :
    ∀ p ∈ (runCmd agents cmd).1, 0 ≤ p.2 := by
  cases cmd with
  | actionContribute agent => exact update_reputation_nonneg h
  | actionShare agent => exact update_reputation_nonneg h
  | actionIdle agent => exact update_reputation_nonneg h
  | transferRep f t amt => exact transfer_reputation_nonneg h (hamt f t amt rfl)

theorem initAgents_nonneg {n : ℤ} {inits : List ℚ}
    (hv : ∀ r ∈ inits, 50 ≤ r ∧ r ≤ 100) :
    ∀ p ∈ initAgents n inits, 0 ≤ p.2 := by
  intro p hp
  simp only [initAgents, List.mem_map] at hp
  obtain ⟨i, _, rfl⟩ := hp
  rcases getD_self_or_mem inits i 0 with h | h
  · show (0 : ℚ) ≤ inits.getD i 0
    rw [h]
  · show (0 : ℚ) ≤ inits.getD i 0
    have := (hv _ h).1
    linarith

theorem step_nonneg {s : SimState} {c : StepChoice}
    (h : ∀ p ∈ s.agents, 0 ≤ p.2) (hc : ValidChoice s c) :
    ∀ p ∈ (step s c).1.agents, 0 ≤ p.2 := by
  obtain ⟨i, act, pidx, amt⟩ := c
  cases act with
  | contribute => exact update_reputation_nonneg h
  | share => exact update_reputation_nonneg h
  | idle => exact update_reputation_nonneg h
  | trade =>
      obtain ⟨hidx, htr⟩ := hc
      obtain ⟨⟨h5, _⟩, _⟩ := htr rfl
      by_cases hothers :
          otherAgents s.agents ((s.agents.map Prod.fst).getD i "") = []
      · have heq : (step s ⟨i, .trade, pidx, amt⟩).1.agents = s.agents := by
          show (if otherAgents s.agents ((s.agents.map Prod.fst).getD i "") = []
                then s.agents else _) = s.agents
          rw [if_pos hothers]
        rw [heq]; exact h
      · have heq : (step s ⟨i, .trade, pidx, amt⟩).1.agents =
            (runCmd s.agents
              (.transferRep ((s.agents.map Prod.fst).getD i "")
                ((otherAgents s.agents ((s.agents.map Prod.fst).getD i "")).getD pidx "")
                amt)).1 := by
          show (if otherAgents s.agents ((s.agents.map Prod.fst).getD i "") = []
                then s.agents else _) = _
          rw [if_neg hothers]
        rw [heq]
        exact transfer_reputation_nonneg h (by linarith)

theorem reachable_nonneg {s : SimState} (hs : Reachable s) : ∀ p ∈ s.agents, 0 ≤ p.2 := by
  induction hs with
  | init n inits hv => exact initAgents_nonneg hv.2
  | step s c hs hc ih => exact step_nonneg ih hc
  | reset s n inits hs hv ih => exact initAgents_nonneg hv.2

theorem reachable_runSteps : ∀ (cs : List StepChoice) (s : SimState),
    Reachable s → ValidTrace s cs → Reachable (runSteps s cs).1 := by
  intro cs
  induction cs with
  | nil => intro s hs _; exact hs
  | cons c cs ih => intro s hs hv; exact ih _ (Reachable.step s c hs hv.1) hv.2

end Simple

/-- C1 counterexample: a reachable state in which an agent's reputation
exceeds 200 — seven contributions bring Agent_1 from 100 to the clamped
ceiling 200, then a trade of 10 from Agent_0 credits Agent_1 with an
unclamped 10 * 1.1, landing at 211.  The receiver-credit side of a successful
transfer is not clamped, so the [0, 200] interval is not an invariant of all
reachable states. -/
theorem C1_clamp_counterexample :
    ∃ s : SimState, Simple.Reachable s ∧
      ∃ r : ℚ, lookup s.agents "Agent_1" = some r ∧ 200 < r := by
  have hmk : Simple.mkSim 2 [100, 100] =
      ⟨2, [("Agent_0", 100), ("Agent_1", 100)], [], 0⟩ := by decide
  have r0 : Simple.Reachable (⟨2, [("Agent_0", 100), ("Agent_1", 100)], [], 0⟩ : SimState) :=
    hmk ▸ Simple.Reachable.init 2 [100, 100] (by decide)
  have h1 : (Simple.step ⟨2, [("Agent_0", 100), ("Agent_1", 100)], [], 0⟩
      ⟨1, .contribute, 0, 0⟩).1 =
      ⟨2, [("Agent_0", 100), ("Agent_1", 115)],
       [("Agent_1", .contribute, 15)], 1⟩ := by
    simp [Simple.step, Simple.runCmd, Simple.update_reputation, lookup, setVal,
      max_def, min_def]
    norm_num
  have r1 := h1 ▸ Simple.Reachable.step _ _ r0 (by decide)
  have h2 : (Simple.step ⟨2, [("Agent_0", 100), ("Agent_1", 115)],
      [("Agent_1", .contribute, 15)], 1⟩ ⟨1, .contribute, 0, 0⟩).1 =
      ⟨2, [("Agent_0", 100), ("Agent_1", 130)],
       [("Agent_1", .contribute, 15), ("Agent_1", .contribute, 15)], 2⟩ := by
    simp [Simple.step, Simple.runCmd, Simple.update_reputation, lookup, setVal,
      max_def, min_def]
    norm_num
  have r2 := h2 ▸ Simple.Reachable.step _ _ r1 (by decide)
  have h3 : (Simple.step ⟨2, [("Agent_0", 100), ("Agent_1", 130)],
      [("Agent_1", .contribute, 15), ("Agent_1", .contribute, 15)], 2⟩
      ⟨1, .contribute, 0, 0⟩).1 =
      ⟨2, [("Agent_0", 100), ("Agent_1", 145)],
       [("Agent_1", .contribute, 15), ("Agent_1", .contribute, 15),
        ("Agent_1", .contribute, 15)], 3⟩ := by
    simp [Simple.step, Simple.runCmd, Simple.update_reputation, lookup, setVal,
      max_def, min_def]
    norm_num
  have r3 := h3 ▸ Simple.Reachable.step _ _ r2 (by decide)
  have h4 : (Simple.step ⟨2, [("Agent_0", 100), ("Agent_1", 145)],
      [("Agent_1", .contribute, 15), ("Agent_1", .contribute, 15),
       ("Agent_1", .contribute, 15)], 3⟩ ⟨1, .contribute, 0, 0⟩).1 =
      ⟨2, [("Agent_0", 100), ("Agent_1", 160)],
       [("Agent_1", .contribute, 15), ("Agent_1", .contribute, 15),
        ("Agent_1", .contribute, 15), ("Agent_1", .contribute, 15)], 4⟩ := by
    simp [Simple.step, Simple.runCmd, Simple.update_reputation, lookup, setVal,
      max_def, min_def]
    norm_num
  have r4 := h4 ▸ Simple.Reachable.step _ _ r3 (by decide)
  have h5 : (Simple.step ⟨2, [("Agent_0", 100), ("Agent_1", 160)],
      [("Agent_1", .contribute, 15), ("Agent_1", .contribute, 15),
       ("Agent_1", .contribute, 15), ("Agent_1", .contribute, 15)], 4⟩
      ⟨1, .contribute, 0, 0⟩).1 =
      ⟨2, [("Agent_0", 100), ("Agent_1", 175)],
       [("Agent_1", .contribute, 15), ("Agent_1", .contribute, 15),
        ("Agent_1", .contribute, 15), ("Agent_1", .contribute, 15),
        ("Agent_1", .contribute, 15)], 5⟩ := by
    simp [Simple.step, Simple.runCmd, Simple.update_reputation, lookup, setVal,
      max_def, min_def]
    norm_num
  have r5 := h5 ▸ Simple.Reachable.step _ _ r4 (by decide)
  have h6 : (Simple.step ⟨2, [("Agent_0", 100), ("Agent_1", 175)],
      [("Agent_1", .contribute, 15), ("Agent_1", .contribute, 15),
       ("Agent_1", .contribute, 15), ("Agent_1", .contribute, 15),
       ("Agent_1", .contribute, 15)], 5⟩ ⟨1, .contribute, 0, 0⟩).1 =
      ⟨2, [("Agent_0", 100), ("Agent_1", 190)],
       [("Agent_1", .contribute, 15), ("Agent_1", .contribute, 15),
        ("Agent_1", .contribute, 15), ("Agent_1", .contribute, 15),
        ("Agent_1", .contribute, 15), ("Agent_1", .contribute, 15)], 6⟩ := by
    simp [Simple.step, Simple.runCmd, Simple.update_reputation, lookup, setVal,
      max_def, min_def]
    norm_num
  have r6 := h6 ▸ Simple.Reachable.step _ _ r5 (by decide)
  have h7 : (Simple.step ⟨2, [("Agent_0", 100), ("Agent_1", 190)],
      [("Agent_1", .contribute, 15), ("Agent_1", .contribute, 15),
       ("Agent_1", .contribute, 15), ("Agent_1", .contribute, 15),
       ("Agent_1", .contribute, 15), ("Agent_1", .contribute, 15)], 6⟩
      ⟨1, .contribute, 0, 0⟩).1 =
      ⟨2, [("Agent_0", 100), ("Agent_1", 200)],
       [("Agent_1", .contribute, 15), ("Agent_1", .contribute, 15),
        ("Agent_1", .contribute, 15), ("Agent_1", .contribute, 15),
        ("Agent_1", .contribute, 15), ("Agent_1", .contribute, 15),
        ("Agent_1", .contribute, 10)], 7⟩ := by
    simp [Simple.step, Simple.runCmd, Simple.update_reputation, lookup, setVal,
      max_def, min_def]
    norm_num
  have r7 := h7 ▸ Simple.Reachable.step _ _ r6 (by decide)
  have h8 : (Simple.step ⟨2, [("Agent_0", 100), ("Agent_1", 200)],
      [("Agent_1", .contribute, 15), ("Agent_1", .contribute, 15),
       ("Agent_1", .contribute, 15), ("Agent_1", .contribute, 15),
       ("Agent_1", .contribute, 15), ("Agent_1", .contribute, 15),
       ("Agent_1", .contribute, 10)], 7⟩ ⟨0, .trade, 0, 10⟩).1 =
      ⟨2, [("Agent_0", 90), ("Agent_1", 211)],
       [("Agent_1", .contribute, 15), ("Agent_1", .contribute, 15),
        ("Agent_1", .contribute, 15), ("Agent_1", .contribute, 15),
        ("Agent_1", .contribute, 15), ("Agent_1", .contribute, 15),
        ("Agent_1", .contribute, 10), ("Agent_0", .trade, -10)], 8⟩ := by
    simp [Simple.step, Simple.runCmd, Simple.transfer_reputation, Simple.otherAgents,
      lookup, setVal, List.filter]
    norm_num
  have r8 := h8 ▸ Simple.Reachable.step _ _ r7 (by decide)
  exact ⟨_, r8, 211, by decide, by norm_num⟩

/-- C1 (amended): in every reachable state every reputation is bounded below
by 0, and a mutation through `update_reputation` of a known agent yields a
score clamped to [0, 200]; the receiver credit of a successful transfer is
not clamped, so 200 is not an upper bound of reachable scores. -/
theorem C1_reachable_nonneg_update_clamped :
    (∀ s : SimState, Simple.Reachable s → ∀ p ∈ s.agents, 0 ≤ p.2) ∧
    (∀ (agents : List (String × ℚ)) (name : String) (change oldRep : ℚ),
      lookup agents name = some oldRep →
      0 ≤ (Simple.update_reputation agents name change).2 ∧
      (Simple.update_reputation agents name change).2 ≤ 200) := by
  constructor
  · intro s hs
    exact Simple.reachable_nonneg hs
  · intro agents name change oldRep h
    rw [Simple.update_eq_of_some h]
    refine ⟨le_max_left 0 _, max_le (by norm_num) (min_le_left 200 _)⟩

/-- Witness for the amended C1 at concrete inputs. -/
theorem C1_reachable_nonneg_update_clamped_witness :
    (∀ p ∈ (Simple.mkSim 1 [60]).agents, 0 ≤ p.2) ∧
    (0 ≤ (Simple.update_reputation [("Agent_0", 60)] "Agent_0" 300).2 ∧
     (Simple.update_reputation [("Agent_0", 60)] "Agent_0" 300).2 ≤ 200) := by
  constructor
  · exact C1_reachable_nonneg_update_clamped.1 _
      (Simple.Reachable.init 1 [60] (by decide))
  · exact C1_reachable_nonneg_update_clamped.2 [("Agent_0", 60)] "Agent_0" 300 60
      (by decide)

/-- C2: the two engine variants have identical observable behavior.  Every
public operation of the hyperon-backed engine — construction, step (given the
same random draws), health score, agent states, action history, reset, and
reputation distribution — and every grounded operation and rule dispatch
equals, as a function, the corresponding operation of the pure-Python engine. -/
theorem C2_engines_equivalent :
    Rich.mkSim = Simple.mkSim ∧
    Rich.step = Simple.step ∧
    Rich.healthScore = Simple.healthScore ∧
    Rich.getAgentStates = Simple.getAgentStates ∧
    Rich.getActionHistory = Simple.getActionHistory ∧
    Rich.resetSim = Simple.resetSim ∧
    Rich.get_reputation_distribution = Simple.get_reputation_distribution ∧
    Rich.runCmd = Simple.runCmd ∧
    Rich.update_reputation = Simple.update_reputation ∧
    Rich.get_reputation = Simple.get_reputation ∧
    Rich.transfer_reputation = Simple.transfer_reputation := by
  refine ⟨rfl, rfl, rfl, rfl, rfl, rfl, rfl, rfl, rfl, rfl, rfl⟩

/-- C3: a successful transfer between two existing, distinct agents with
sufficient sender balance returns 1, debits the sender by exactly the amount,
credits the receiver by exactly 1.1 times the amount, and increases the total
stored reputation by exactly a tenth of the amount. -/
theorem C3_transfer_success (agents : List (String × ℚ)) (a b : String)
    (amt ra rb : ℚ) (ha : lookup agents a = some ra)
    (hb : lookup agents b = some rb) (hab : a ≠ b) (hge : amt ≤ ra) :
    (Simple.transfer_reputation agents a b amt).2 = 1 ∧
    lookup (Simple.transfer_reputation agents a b amt).1 a = some (ra - amt) ∧
    lookup (Simple.transfer_reputation agents a b amt).1 b =
      some (rb + amt * (11 / 10)) ∧
    sumVals (Simple.transfer_reputation agents a b amt).1 =
      sumVals agents + amt / 10 := by
  have h1 : lookup (setVal agents a (ra - amt)) b = some rb := by
    rw [lookup_setVal_ne (Ne.symm hab)]; exact hb
  rw [Simple.transfer_eq_of_success ha hb hge]
  refine ⟨rfl, ?_, ?_, ?_⟩
  · rw [lookup_setVal_ne hab]
    exact lookup_setVal_self ha
  · simp only [h1, Option.getD_some]
    exact lookup_setVal_self h1
  · simp only [h1, Option.getD_some]
    rw [sumVals_setVal h1, sumVals_setVal ha]
    ring

/-- Witness for C3 at a concrete store. -/
theorem C3_transfer_success_witness :
    (Simple.transfer_reputation [("Agent_0", 100), ("Agent_1", 50)]
      "Agent_0" "Agent_1" 30).2 = 1 ∧
    lookup (Simple.transfer_reputation [("Agent_0", 100), ("Agent_1", 50)]
      "Agent_0" "Agent_1" 30).1 "Agent_0" = some (100 - 30) ∧
    lookup (Simple.transfer_reputation [("Agent_0", 100), ("Agent_1", 50)]
      "Agent_0" "Agent_1" 30).1 "Agent_1" = some (50 + 30 * (11 / 10)) ∧
    sumVals (Simple.transfer_reputation [("Agent_0", 100), ("Agent_1", 50)]
      "Agent_0" "Agent_1" 30).1 =
      sumVals [("Agent_0", 100), ("Agent_1", 50)] + 30 / 10 :=
  C3_transfer_success [("Agent_0", 100), ("Agent_1", 50)] "Agent_0" "Agent_1"
    30 100 50 (by decide) (by decide) (by decide) (by decide)

/-- C4: a transfer with an unknown sender, an unknown receiver, or an
insufficient sender balance returns 0 and leaves the store untouched — no
partial mutation of either side. -/
theorem C4_transfer_failure (agents : List (String × ℚ)) (a b : String) (amt : ℚ)
    (h : lookup agents a = none ∨ lookup agents b = none ∨
      ∃ ra, lookup agents a = some ra ∧ ra < amt) :
    Simple.transfer_reputation agents a b amt = (agents, 0) := by
  rcases h with h | h | ⟨ra, ha, hlt⟩
  · exact Simple.transfer_eq_of_from_none h
  · exact Simple.transfer_eq_of_to_none h
  · cases hb : lookup agents b with
    | none => exact Simple.transfer_eq_of_to_none hb
    | some rb => exact Simple.transfer_eq_of_insufficient ha hb hlt

/-- Witness for C4 at a concrete store with insufficient balance. -/
theorem C4_transfer_failure_witness :
    Simple.transfer_reputation [("Agent_0", 10), ("Agent_1", 5)]
      "Agent_0" "Agent_1" 20 = ([("Agent_0", 10), ("Agent_1", 5)], 0) :=
  C4_transfer_failure [("Agent_0", 10), ("Agent_1", 5)] "Agent_0" "Agent_1" 20
    (Or.inr (Or.inr ⟨10, by decide, by decide⟩))

/-- C5: code behavior at the failing input — the constructor and the reset
entry point accept a zero or negative agent count without any rejection and
silently produce an empty-agent simulation (whose health score is the empty
default 0), contradicting the required rejection of non-positive counts. -/
theorem C5_construction_not_rejected :
    (Simple.mkSim 0 []).agents = [] ∧
    (Simple.mkSim (-3) []).agents = [] ∧
    (Simple.resetSim (Simple.mkSim 5 [60, 60, 60, 60, 60]) (some 0) []).agents = [] ∧
    Simple.healthScore (Simple.mkSim 0 []).agents = 0 := by
  refine ⟨rfl, rfl, rfl, by decide⟩

namespace Simple

theorem step_stepCount (s : SimState) (c : StepChoice) :
    (step s c).1.stepCount = s.stepCount + 1 := rfl

theorem step_record_step (s : SimState) (c : StepChoice) :
    (step s c).2.step = s.stepCount + 1 := rfl

theorem step_history_eq (s : SimState) (c : StepChoice) :
    (step s c).1.history = s.history ++
      [((step s c).2.agent, (step s c).2.action, (step s c).2.reputation_change)] := rfl

/-- Bookkeeping of iterated steps: the step counter advances by one per call,
each call appends exactly its own record to the history, and the k-th record
carries step index `stepCount + k + 1`. -/
theorem runSteps_spec (cs : List StepChoice) : ∀ s : SimState,
    (runSteps s cs).1.stepCount = s.stepCount + cs.length ∧
    (runSteps s cs).2.length = cs.length ∧
    (runSteps s cs).1.history = s.history ++
      (runSteps s cs).2.map (fun r => (r.agent, r.action, r.reputation_change)) ∧
    ∀ i (hi : i < (runSteps s cs).2.length),
      ((runSteps s cs).2.get ⟨i, hi⟩).step = s.stepCount + i + 1 := by
  induction cs with
  | nil =>
      intro s
      refine ⟨rfl, rfl, by simp [runSteps], ?_⟩
      intro i hi
      exact absurd hi (Nat.not_lt_zero i)
  | cons c cs ih =>
      intro s
      obtain ⟨ih1, ih2, ih3, ih4⟩ := ih (step s c).1
      refine ⟨?_, ?_, ?_, ?_⟩
      · show (runSteps (step s c).1 cs).1.stepCount = s.stepCount + (c :: cs).length
        rw [ih1, step_stepCount]
        simp only [List.length_cons]
        omega
      · show ((step s c).2 :: (runSteps (step s c).1 cs).2).length = (c :: cs).length
        simp [ih2]
      · show (runSteps (step s c).1 cs).1.history = s.history ++
          ((step s c).2 :: (runSteps (step s c).1 cs).2).map
            (fun r => (r.agent, r.action, r.reputation_change))
        rw [ih3, step_history_eq]
        simp
      · intro i hi
        match i with
        | 0 => exact step_record_step s c
        | Nat.succ j =>
            have hj : j < (runSteps (step s c).1 cs).2.length := by
              have : (runSteps s (c :: cs)).2.length =
                  (runSteps (step s c).1 cs).2.length + 1 := by
                show ((step s c).2 :: (runSteps (step s c).1 cs).2).length = _
                simp
              omega
            have := ih4 j hj
            show ((runSteps (step s c).1 cs).2.get ⟨j, hj⟩).step = s.stepCount + (j + 1) + 1
            rw [this, step_stepCount]
            omega

end Simple

/-- C6: after running any n step calls from a freshly constructed or reset
state, the final step counter is n, the action history has exactly n records
which are, in order, precisely the per-step records produced, and the i-th
returned step record carries step index i + 1. -/
theorem C6_history_bookkeeping (s0 : SimState) (cs : List StepChoice)
    (h0 : s0.stepCount = 0) (hh : s0.history = []) :
    (Simple.runSteps s0 cs).1.stepCount = cs.length ∧
    (Simple.runSteps s0 cs).1.history.length = cs.length ∧
    (Simple.runSteps s0 cs).2.length = cs.length ∧
    (Simple.runSteps s0 cs).1.history =
      (Simple.runSteps s0 cs).2.map (fun r => (r.agent, r.action, r.reputation_change)) ∧
    ∀ i (hi : i < (Simple.runSteps s0 cs).2.length),
      ((Simple.runSteps s0 cs).2.get ⟨i, hi⟩).step = i + 1 := by
  obtain ⟨h1, h2, h3, h4⟩ := Simple.runSteps_spec cs s0
  rw [h0] at h1
  rw [hh] at h3
  simp only [List.nil_append] at h3
  refine ⟨by omega, ?_, h2, h3, ?_⟩
  · rw [h3, List.length_map, h2]
  · intro i hi
    have := h4 i hi
    rw [h0] at this
    omega

/-- Witness for C6: two steps from a two-agent construction. -/
theorem C6_history_bookkeeping_witness :
    (Simple.runSteps (Simple.mkSim 2 [60, 80])
      [⟨0, .contribute, 0, 0⟩, ⟨1, .idle, 0, 0⟩]).1.stepCount = 2 ∧
    (Simple.runSteps (Simple.mkSim 2 [60, 80])
      [⟨0, .contribute, 0, 0⟩, ⟨1, .idle, 0, 0⟩]).1.history.length = 2 := by
  obtain ⟨h1, h2, h3, h4, h5⟩ := C6_history_bookkeeping (Simple.mkSim 2 [60, 80])
    [⟨0, .contribute, 0, 0⟩, ⟨1, .idle, 0, 0⟩] rfl rfl
  exact ⟨h1, h2⟩

/-- C7: updating a known agent stores and returns exactly the clamp of
`old + delta` to [0, 200] — in particular exactly 200 above the ceiling and
exactly 0 below the floor — and touches no other agent; updating an unknown
agent returns 0 and changes nothing. -/
theorem C7_update_clamp (agents : List (String × ℚ)) (name : String) (delta : ℚ) :
    (∀ oldRep, lookup agents name = some oldRep →
      (Simple.update_reputation agents name delta).2 = max 0 (min 200 (oldRep + delta)) ∧
      lookup (Simple.update_reputation agents name delta).1 name =
        some (max 0 (min 200 (oldRep + delta))) ∧
      (∀ k, k ≠ name →
        lookup (Simple.update_reputation agents name delta).1 k = lookup agents k) ∧
      (200 < oldRep + delta → max 0 (min 200 (oldRep + delta)) = 200) ∧
      (oldRep + delta < 0 → max 0 (min 200 (oldRep + delta)) = 0)) ∧
    (lookup agents name = none →
      Simple.update_reputation agents name delta = (agents, 0)) := by
  constructor
  · intro oldRep h
    rw [Simple.update_eq_of_some h]
    refine ⟨rfl, lookup_setVal_self h, ?_, ?_, ?_⟩
    · intro k hk
      exact lookup_setVal_ne hk
    · intro hgt
      rw [min_eq_left (le_of_lt hgt), max_eq_right (by norm_num : (0:ℚ) ≤ 200)]
    · intro hlt
      rw [min_eq_right (by linarith : oldRep + delta ≤ 200),
        max_eq_left (le_of_lt hlt)]
  · intro h
    exact Simple.update_eq_of_none h

/-- Witness for C7: a ceiling-clamped update on a concrete store. -/
theorem C7_update_clamp_witness :
    (Simple.update_reputation [("Agent_0", 190)] "Agent_0" 15).2 =
      max 0 (min 200 (190 + 15)) ∧
    max 0 (min 200 ((190 : ℚ) + 15)) = 200 := by
  obtain ⟨h1, h2, h3, h4, h5⟩ :=
    (C7_update_clamp [("Agent_0", 190)] "Agent_0" 15).1 190 (by decide)
  exact ⟨h1, h4 (by norm_num)⟩

/-- C8: in a one-agent state, a step whose drawn action is `trade` finds no
eligible counterparty and degenerates to a no-op: no reputation changes, the
step counter still advances, and a history record with zero delta is still
appended. -/
theorem C8_singleton_trade_noop (s : SimState) (c : StepChoice) (a : String) (r : ℚ)
    (hs : s.agents = [(a, r)]) (hact : c.act = .trade) (hidx : c.agentIdx = 0) :
    (Simple.step s c).1.agents = s.agents ∧
    (Simple.step s c).2.reputation_change = 0 ∧
    (Simple.step s c).1.history = s.history ++ [(a, Action.trade, 0)] ∧
    (Simple.step s c).1.stepCount = s.stepCount + 1 := by
  obtain ⟨i, act, pidx, amt⟩ := c
  obtain rfl : act = .trade := hact
  obtain rfl : i = 0 := hidx
  simp [Simple.step, Simple.otherAgents, hs]

/-- Witness for C8: a concrete one-agent state. -/
theorem C8_singleton_trade_noop_witness :
    (Simple.step ⟨1, [("Agent_0", 75)], [], 0⟩ ⟨0, .trade, 0, 7⟩).1.agents =
      (⟨1, [("Agent_0", 75)], [], 0⟩ : SimState).agents ∧
    (Simple.step ⟨1, [("Agent_0", 75)], [], 0⟩ ⟨0, .trade, 0, 7⟩).2.reputation_change = 0 ∧
    (Simple.step ⟨1, [("Agent_0", 75)], [], 0⟩ ⟨0, .trade, 0, 7⟩).1.history =
      (⟨1, [("Agent_0", 75)], [], 0⟩ : SimState).history ++ [("Agent_0", Action.trade, 0)] ∧
    (Simple.step ⟨1, [("Agent_0", 75)], [], 0⟩ ⟨0, .trade, 0, 7⟩).1.stepCount =
      (⟨1, [("Agent_0", 75)], [], 0⟩ : SimState).stepCount + 1 :=
  C8_singleton_trade_noop ⟨1, [("Agent_0", 75)], [], 0⟩ ⟨0, .trade, 0, 7⟩
    "Agent_0" 75 rfl rfl rfl

namespace Simple

/-- The tier fold of `get_reputation_distribution`, characterized by three
predicate counts over the store. -/
theorem distribution_foldl (l : List (String × ℚ)) : ∀ d : Distribution,
    l.foldl (fun d p => distStep d p.2) d =
      ⟨d.high + l.countP (fun p => decide (100 ≤ p.2)),
       d.medium + l.countP (fun p => decide (50 ≤ p.2) && decide (p.2 < 100)),
       d.low + l.countP (fun p => decide (p.2 < 50))⟩ := by
  induction l with
  | nil =>
      intro d
      simp
  | cons p rest ih =>
      intro d
      rw [List.foldl_cons, ih]
      obtain ⟨k, x⟩ := p
      rcases le_or_lt 100 x with h1 | h1
      · have h2 : ¬ x < 100 := not_lt.mpr h1
        have h3 : ¬ x < 50 := by linarith
        simp [distStep, h1, h2, h3, List.countP_cons]
        omega
      · rcases le_or_lt 50 x with h4 | h4
        · have h3 : ¬ x < 50 := not_lt.mpr h4
          simp [distStep, not_le.mpr h1, h1, h4, h3, List.countP_cons]
          omega
        · simp [distStep, not_le.mpr h1, not_le.mpr h4, h4, List.countP_cons]
          omega

/-- The three tier predicates split every stored value exactly once. -/
theorem countP_tiers (l : List (String × ℚ)) :
    l.countP (fun p => decide (100 ≤ p.2)) +
      l.countP (fun p => decide (50 ≤ p.2) && decide (p.2 < 100)) +
      l.countP (fun p => decide (p.2 < 50)) = l.length := by
  induction l with
  | nil => rfl
  | cons p rest ih =>
      obtain ⟨k, x⟩ := p
      rcases le_or_lt 100 x with h1 | h1
      · have h2 : ¬ x < 100 := not_lt.mpr h1
        have h3 : ¬ x < 50 := by linarith
        simp [List.countP_cons, h1, h2, h3]
        omega
      · rcases le_or_lt 50 x with h4 | h4
        · have h3 : ¬ x < 50 := not_lt.mpr h4
          simp [List.countP_cons, not_le.mpr h1, h1, h4, h3]
          omega
        · simp [List.countP_cons, not_le.mpr h1, not_le.mpr h4, h4]
          omega

end Simple

/-- C9: the reputation distribution counts each agent into exactly one tier —
`high` counts exactly the agents with reputation ≥ 100, `medium` exactly those
with 50 ≤ reputation < 100, `low` exactly those with reputation < 50 (so a
value of exactly 100 lands in high and exactly 50 in medium) — and the three
counts sum to the total number of agents. -/
theorem C9_distribution_partition (s : SimState) :
    (Simple.get_reputation_distribution s).high =
      s.agents.countP (fun p => decide (100 ≤ p.2)) ∧
    (Simple.get_reputation_distribution s).medium =
      s.agents.countP (fun p => decide (50 ≤ p.2) && decide (p.2 < 100)) ∧
    (Simple.get_reputation_distribution s).low =
      s.agents.countP (fun p => decide (p.2 < 50)) ∧
    (Simple.get_reputation_distribution s).high +
      (Simple.get_reputation_distribution s).medium +
      (Simple.get_reputation_distribution s).low = s.agents.length := by
  have h := Simple.distribution_foldl s.agents ⟨0, 0, 0⟩
  unfold Simple.get_reputation_distribution
  rw [h]
  refine ⟨by simp, by simp, by simp, ?_⟩
  simp only [Nat.zero_add]
  exact Simple.countP_tiers s.agents

/-- C10: a self-transfer with sufficient balance is accepted by the rule
dispatcher — no distinctness of the two parties is required — and nets the
agent exactly a tenth of the amount: the debit of `amt` and the credit of
`amt * 1.1` both land on the same agent. -/
theorem C10_self_transfer (agents : List (String × ℚ)) (a : String) (amt ra : ℚ)
    (ha : lookup agents a = some ra) (hge : amt ≤ ra) :
    (Simple.runCmd agents (.transferRep a a amt)).2 = 1 ∧
    lookup (Simple.runCmd agents (.transferRep a a amt)).1 a =
      some (ra + amt / 10) := by
  have h0 : Simple.runCmd agents (.transferRep a a amt) =
      Simple.transfer_reputation agents a a amt := rfl
  rw [h0, Simple.transfer_eq_of_success ha ha hge]
  have h1 : lookup (setVal agents a (ra - amt)) a = some (ra - amt) :=
    lookup_setVal_self ha
  refine ⟨rfl, ?_⟩
  simp only [h1, Option.getD_some]
  rw [lookup_setVal_self h1]
  congr 1
  ring

/-- Witness for C10 at a concrete one-agent store. -/
theorem C10_self_transfer_witness :
    (Simple.runCmd [("Agent_0", 100)] (.transferRep "Agent_0" "Agent_0" 20)).2 = 1 ∧
    lookup (Simple.runCmd [("Agent_0", 100)]
      (.transferRep "Agent_0" "Agent_0" 20)).1 "Agent_0" = some (100 + 20 / 10) :=
  C10_self_transfer [("Agent_0", 100)] "Agent_0" 20 100 (by decide) (by decide)

end ASISim
